import Mathlib

/-!
# Verification of the SRS (spaced-repetition) service

A shallow embedding of `src/services/srs.ts` (the SM-2 style scheduler and
its card store) and proofs of the specification's claims about it.

Modelling conventions:
* JavaScript `number` values are modelled as `ℚ` where fractional values can
  arise (`easeFactor`, `interval`), and as `Nat` for pure counters that the
  code only initialises to 0/1 and increments (`repetitions`,
  `timesSeenCount`, `correctCount`, `incorrectCount`).
* Timestamps (`nextReview`, `lastReview`, `createdAt` — ISO strings in the
  source, always produced by `new Date(...)` and compared after re-parsing
  with `new Date(s)`) are modelled as `ℚ` instants measured in days, so the
  source's `nextReviewDate.setDate(getDate() + interval)` becomes
  `now + interval`.
* The service's `Map<string, SRSCard>` keyed by `card.id` is modelled as an
  insertion-ordered list of cards; `mapSet` and `mapGet` reproduce the
  JavaScript `Map.set` / `Map.get` semantics on the key `card.id`.
* `JSON.stringify` / `JSON.parse` as used by `saveCards` / `loadCards` is
  modelled at the level of JSON values (a `Json` inductive), which is exact
  for this flat record type.
* `Math.round` in JavaScript is `⌊x + 1/2⌋` (round half towards +∞);
  `jsRound` models it.
* Code that `throw`s (`reviewCard` on an unknown id) returns `Option`.
-/

/-- `Math.round` of JavaScript: round half towards positive infinity. -/
def jsRound (q : ℚ) : ℤ := ⌊q + 1/2⌋

/-- The card record of `src/services/srs.ts` (`interface SRSCard`). -/
structure SRSCard where
  id : String
  userId : String
  english : String
  translation : String
  pronunciation : String
  culturalContext : String
  easeFactor : ℚ
  interval : ℚ
  repetitions : Nat
  nextReview : ℚ
  lastReview : ℚ
  timesSeenCount : Nat
  correctCount : Nat
  incorrectCount : Nat
  createdAt : ℚ
  deriving DecidableEq, Repr

/-- `enum ReviewQuality` of the source. -/
inductive ReviewQuality where
  | AGAIN
  | HARD
  | GOOD
  | EASY
  deriving DecidableEq, Repr

/-- The numeric value of a quality grade (AGAIN=0, HARD=1, GOOD=2, EASY=3). -/
def ReviewQuality.val : ReviewQuality → ℚ
  | .AGAIN => 0
  | .HARD => 1
  | .GOOD => 2
  | .EASY => 3

/-- The in-memory store: the service's `Map<string, SRSCard>`, as an
insertion-ordered list of cards keyed by their `id` field. -/
abbrev Store := List SRSCard

/-- `Map.get(id)`: the first (unique, in well-formed stores) card with the
given id. -/
def mapGet (s : Store) (cardId : String) : Option SRSCard :=
  List.find? (fun c => c.id == cardId) s

/-- `Map.set(card.id, card)`: replace the entry with the same id in place,
or append when the id is new. -/
def mapSet : Store → SRSCard → Store
  | [], c => [c]
  | d :: rest, c => if d.id == c.id then c :: rest else d :: mapSet rest c

/-- The result record of `calculateNextReview`. -/
structure ReviewUpdate where
  easeFactor : ℚ
  interval : ℚ
  repetitions : Nat
  deriving DecidableEq, Repr

/-- `calculateNextReview` (the SM-2 step, `srs.ts` lines 130–167):
update the ease factor by
`max(1.3, ease + (0.1 - (3 - q) * (0.08 + (3 - q) * 0.02)))`,
then either reset (`quality < GOOD`) or increment repetitions and grow the
interval (1, 6, then `round(interval * newEase)`). -/
def calculateNextReview (easeFactor : ℚ) (interval : ℚ) (repetitions : Nat)
    (quality : ReviewQuality) : ReviewUpdate :=
  let q := quality.val
  let newEaseFactor : ℚ :=
    max (13/10) (easeFactor + (1/10 - (3 - q) * (2/25 + (3 - q) * (1/50))))
  if q < 2 then
    { easeFactor := newEaseFactor, interval := 1, repetitions := 0 }
  else
    let newRepetitions := repetitions + 1
    let newInterval : ℚ :=
      if newRepetitions = 1 then 1
      else if newRepetitions = 2 then 6
      else (jsRound (interval * newEaseFactor) : ℚ)
    { easeFactor := newEaseFactor, interval := newInterval,
      repetitions := newRepetitions }

/-- The arguments of one `addCard` call, together with the value of
`Date.now()` (modelled in days, as all instants here) during the call. -/
structure AddArgs where
  userId : String
  english : String
  translation : String
  pronunciation : String
  culturalContext : String
  now : ℚ
  deriving DecidableEq, Repr

/-- JavaScript's `toLowerCase()`, modelled as per-character lowercasing. -/
def strLower (s : String) : String :=
  ⟨s.data.map Char.toLower⟩

/-- The case-insensitive (userId, english) lookup of `addCard`
(`srs.ts` lines 80–82). -/
def findExisting (s : Store) (userId english : String) : Option SRSCard :=
  List.find? (fun c => c.userId == userId && strLower c.english == strLower english) s

/-- `addCard` (`srs.ts` lines 70–127): find-or-create. On a hit, bump
`timesSeenCount` and refresh `lastReview`; on a miss, create a card with the
default scheduling state and the id `` `${userId}_${Date.now()}` ``.
Returns the returned card together with the updated store. -/
def addCard (s : Store) (a : AddArgs) : SRSCard × Store :=
  match findExisting s a.userId a.english with
  | some existing =>
      let updated := { existing with
        timesSeenCount := existing.timesSeenCount + 1
        lastReview := a.now }
      (updated, mapSet s updated)
  | none =>
      let card : SRSCard := {
        id := a.userId ++ "_" ++ toString a.now
        userId := a.userId
        english := a.english
        translation := a.translation
        pronunciation := a.pronunciation
        culturalContext := a.culturalContext
        easeFactor := 5/2
        interval := 0
        repetitions := 0
        nextReview := a.now
        lastReview := a.now
        timesSeenCount := 1
        correctCount := 0
        incorrectCount := 0
        createdAt := a.now }
      (card, mapSet s card)

/-- `reviewCard` (`srs.ts` lines 170–217): look the card up (`none` models
the thrown `Card not found` error), apply `calculateNextReview`, stamp
`lastReview = now` and `nextReview = now + interval` days, and bump the
correct/incorrect counters. Returns the updated card and store. -/
def reviewCard (s : Store) (cardId : String) (quality : ReviewQuality)
    (now : ℚ) : Option (SRSCard × Store) :=
  match mapGet s cardId with
  | none => none
  | some card =>
      let u := calculateNextReview card.easeFactor card.interval
        card.repetitions quality
      let updated := { card with
        easeFactor := u.easeFactor
        interval := u.interval
        repetitions := u.repetitions
        lastReview := now
        nextReview := now + u.interval
        correctCount :=
          if 2 ≤ quality.val then card.correctCount + 1 else card.correctCount
        incorrectCount :=
          if 2 ≤ quality.val then card.incorrectCount else card.incorrectCount + 1 }
      some (updated, mapSet s updated)

/-- The due-ordering used by `getDueCards`'s sort comparator
`(a, b) => new Date(a.nextReview) - new Date(b.nextReview)`. -/
def dueLE (a b : SRSCard) : Prop := a.nextReview ≤ b.nextReview

instance : DecidableRel dueLE :=
  fun a b => inferInstanceAs (Decidable (a.nextReview ≤ b.nextReview))

instance : IsTotal SRSCard dueLE := ⟨fun a b => le_total a.nextReview b.nextReview⟩

instance : IsTrans SRSCard dueLE := ⟨fun _ _ _ h h' => le_trans h h'⟩

/-- `getDueCards` (`srs.ts` lines 220–237): the user's cards with
`nextReview <= now`, sorted ascending by `nextReview`. -/
def getDueCards (s : Store) (userId : String) (now : ℚ) : List SRSCard :=
  let dueCards := s.filter (fun c => c.userId == userId && decide (c.nextReview ≤ now))
  dueCards.insertionSort dueLE

/-- `getUserCards` (`srs.ts` lines 240–248): all of the user's cards,
sorted descending by `lastReview`. -/
def getUserCards (s : Store) (userId : String) : List SRSCard :=
  (s.filter (fun c => c.userId == userId)).insertionSort
    (fun a b => b.lastReview ≤ a.lastReview)

/-- The record returned by `getStats`. `accuracy` is `Option ℚ` with `none`
modelling the IEEE `NaN` that JavaScript produces for the division `0/0`
(in `getStats` the numerator `Σ correctCount` is at most the denominator
`Σ correctCount + incorrectCount`, so a zero denominator forces a zero
numerator and the only exceptional value is `0/0 = NaN`). -/
structure Stats where
  totalCards : Nat
  dueCards : Nat
  totalReviews : Nat
  accuracy : Option ℚ
  deriving DecidableEq, Repr

/-- `getStats` (`srs.ts` lines 251–266). The source guards the accuracy
division with `userCards.length > 0`, not with `totalReviews > 0`. -/
def getStats (s : Store) (userId : String) (now : ℚ) : Stats :=
  let userCards := getUserCards s userId
  let dueCards := getDueCards s userId now
  let totalReviews : Nat :=
    userCards.foldl (fun sum c => sum + c.correctCount + c.incorrectCount) 0
  let totalCorrect : Nat := userCards.foldl (fun sum c => sum + c.correctCount) 0
  { totalCards := userCards.length
    dueCards := dueCards.length
    totalReviews := totalReviews
    accuracy :=
      if userCards.length > 0 then
        (if totalReviews = 0 then none
         else some (((totalCorrect : ℚ) / (totalReviews : ℚ)) * 100))
      else some 0 }

/-! ## Persistence: the `JSON.stringify` / `JSON.parse` pair of
`saveCards` / `loadCards`, modelled at the level of JSON values. -/

/-- JSON values (the fragment produced by serialising card arrays). -/
inductive Json where
  | num (q : ℚ)
  | str (s : String)
  | arr (elems : List Json)
  | obj (fields : List (String × Json))

/-- Serialisation of one card: the object `JSON.stringify` produces for an
`SRSCard`, fields in declaration order. -/
def encodeCard (c : SRSCard) : Json :=
  .obj [("id", .str c.id), ("userId", .str c.userId),
        ("english", .str c.english), ("translation", .str c.translation),
        ("pronunciation", .str c.pronunciation),
        ("culturalContext", .str c.culturalContext),
        ("easeFactor", .num c.easeFactor), ("interval", .num c.interval),
        ("repetitions", .num (c.repetitions : ℚ)),
        ("nextReview", .num c.nextReview), ("lastReview", .num c.lastReview),
        ("timesSeenCount", .num (c.timesSeenCount : ℚ)),
        ("correctCount", .num (c.correctCount : ℚ)),
        ("incorrectCount", .num (c.incorrectCount : ℚ)),
        ("createdAt", .num c.createdAt)]

/-- Read a JSON number back as the natural number it came from. -/
def toNatValue (q : ℚ) : Option Nat :=
  if q.den = 1 ∧ 0 ≤ q.num then some q.num.toNat else none

/-- A string field of a JSON object. -/
def getStr : Json → Option String
  | .str s => some s
  | _ => none

/-- A numeric field of a JSON object. -/
def getNum : Json → Option ℚ
  | .num q => some q
  | _ => none

/-- A natural-number counter field of a JSON object. -/
def getNatNum (j : Json) : Option Nat :=
  (getNum j).bind toNatValue

/-- Field lookup in a JSON object. -/
def jLookup (fields : List (String × Json)) (key : String) : Option Json :=
  (List.find? (fun kv => kv.1 == key) fields).map Prod.snd

/-- Deserialisation of one card: the shape `JSON.parse` must deliver for the
cast `const cardsArray: SRSCard[] = JSON.parse(data)` to be honest. -/
def decodeCard : Json → Option SRSCard
  | .obj fields => do
      let id ← (jLookup fields "id").bind getStr
      let userId ← (jLookup fields "userId").bind getStr
      let english ← (jLookup fields "english").bind getStr
      let translation ← (jLookup fields "translation").bind getStr
      let pronunciation ← (jLookup fields "pronunciation").bind getStr
      let culturalContext ← (jLookup fields "culturalContext").bind getStr
      let easeFactor ← (jLookup fields "easeFactor").bind getNum
      let interval ← (jLookup fields "interval").bind getNum
      let repetitions ← (jLookup fields "repetitions").bind getNatNum
      let nextReview ← (jLookup fields "nextReview").bind getNum
      let lastReview ← (jLookup fields "lastReview").bind getNum
      let timesSeenCount ← (jLookup fields "timesSeenCount").bind getNatNum
      let correctCount ← (jLookup fields "correctCount").bind getNatNum
      let incorrectCount ← (jLookup fields "incorrectCount").bind getNatNum
      let createdAt ← (jLookup fields "createdAt").bind getNum
      pure { id := id, userId := userId, english := english,
             translation := translation, pronunciation := pronunciation,
             culturalContext := culturalContext, easeFactor := easeFactor,
             interval := interval, repetitions := repetitions,
             nextReview := nextReview, lastReview := lastReview,
             timesSeenCount := timesSeenCount, correctCount := correctCount,
             incorrectCount := incorrectCount, createdAt := createdAt }
  | _ => none

/-- Deserialisation of a list of serialised cards; fails if any entry
fails. -/
def decodeCardList : List Json → Option (List SRSCard)
  | [] => some []
  | j :: rest =>
      match decodeCard j, decodeCardList rest with
      | some c, some cs => some (c :: cs)
      | _, _ => none

/-- The serialised card array. -/
def decodeCards : Json → Option (List SRSCard)
  | .arr elems => decodeCardList elems
  | _ => none

/-- `saveCards` (`srs.ts` lines 59–67):
`JSON.stringify(Array.from(this.cards.values()))`. -/
def saveCards (s : Store) : Json :=
  .arr (s.map encodeCard)

/-- `loadCards` (`srs.ts` lines 43–56): parse the stored array and rebuild
the map with `new Map(cardsArray.map(card => [card.id, card]))` — each entry
is inserted in order with `Map.set` semantics on the key `card.id`. -/
def loadCards (j : Json) : Option Store :=
  (decodeCards j).map (fun cards => cards.foldl mapSet ([] : Store))

/-! ## Operation sequences over the service -/

/-- One externally visible mutating call to the service. -/
inductive Op where
  | add (a : AddArgs)
  | review (cardId : String) (quality : ReviewQuality) (now : ℚ)

/-- Apply one operation to the store. A `reviewCard` call on an unknown id
throws in the source before any mutation, leaving the store unchanged. -/
def applyOp (s : Store) : Op → Store
  | .add a => (addCard s a).2
  | .review cardId quality now =>
      match reviewCard s cardId quality now with
      | some (_, s2) => s2
      | none => s

/-- The store after a sequence of operations, starting from the empty map. -/
def runOps (ops : List Op) : Store :=
  ops.foldl applyOp []

/-- The store after a sequence of `addCard` calls, starting empty. -/
def runAdds (as : List AddArgs) : Store :=
  as.foldl (fun s a => (addCard s a).2) []

/-- The number of a user's cards in the store. -/
def userCount (s : Store) (userId : String) : Nat :=
  (s.filter (fun c => c.userId == userId)).length

/-- At most one card per (userId, case-insensitive english label):
no two store entries share that key. -/
def dedupKeys (s : Store) : Prop :=
  s.Pairwise (fun c d =>
    ¬(c.userId = d.userId ∧ strLower c.english = strLower d.english))

/-- The store's ids, in insertion order. -/
def ids (s : Store) : List String :=
  s.map SRSCard.id

/-! ## Lemmas about the map model -/

theorem mem_mapSet {s : Store} {c d : SRSCard} (h : c ∈ mapSet s d) :
    c = d ∨ c ∈ s := by
  induction s with
  | nil => simpa [mapSet] using h
  | cons e rest ih =>
    by_cases hid : e.id = d.id
    · simp only [mapSet, hid, beq_self_eq_true, if_true] at h
      rcases List.mem_cons.1 h with h' | h'
      · exact Or.inl h'
      · exact Or.inr (List.mem_cons_of_mem _ h')
    · simp only [mapSet, beq_iff_eq, hid, if_false] at h
      rcases List.mem_cons.1 h with h' | h'
      · exact Or.inr (by simp [h'])
      · rcases ih h' with h'' | h''
        · exact Or.inl h''
        · exact Or.inr (List.mem_cons_of_mem _ h'')

theorem self_mem_mapSet (s : Store) (d : SRSCard) : d ∈ mapSet s d := by
  induction s with
  | nil => simp [mapSet]
  | cons e rest ih =>
    by_cases hid : e.id = d.id
    · simp [mapSet, hid]
    · simp only [mapSet, beq_iff_eq, hid, if_false]
      exact List.mem_cons_of_mem _ ih

theorem mem_mapSet_of_ne {s : Store} {c d : SRSCard} (hc : c ∈ s)
    (hne : c.id ≠ d.id) : c ∈ mapSet s d := by
  induction s with
  | nil => cases hc
  | cons e rest ih =>
    by_cases hid : e.id = d.id
    · simp only [mapSet, hid, beq_self_eq_true, if_true]
      rcases List.mem_cons.1 hc with h' | h'
      · exact absurd (h' ▸ hid) hne
      · exact List.mem_cons_of_mem _ h'
    · simp only [mapSet, beq_iff_eq, hid, if_false]
      rcases List.mem_cons.1 hc with h' | h'
      · exact h' ▸ List.mem_cons_self _ _
      · exact List.mem_cons_of_mem _ (ih h')

theorem length_mapSet_of_mem {s : Store} {c d : SRSCard} (hc : c ∈ s)
    (hid : c.id = d.id) : (mapSet s d).length = s.length := by
  induction s with
  | nil => cases hc
  | cons e rest ih =>
    by_cases he : e.id = d.id
    · simp [mapSet, he]
    · simp only [mapSet, beq_iff_eq, he, if_false, List.length_cons]
      rcases List.mem_cons.1 hc with h' | h'
      · exact absurd (h' ▸ hid) he
      · rw [ih h']

theorem mapSet_of_not_mem {s : Store} {d : SRSCard} (h : d.id ∉ ids s) :
    mapSet s d = s ++ [d] := by
  induction s with
  | nil => rfl
  | cons e rest ih =>
    simp only [ids, List.map_cons, List.mem_cons] at h
    push_neg at h
    simp only [mapSet, beq_iff_eq, Ne.symm h.1, if_false, List.cons_append]
    rw [ih h.2]

theorem ids_nodup_mapSet {s : Store} {d : SRSCard} (h : (ids s).Nodup) :
    (ids (mapSet s d)).Nodup := by
  induction s with
  | nil => simp [mapSet, ids]
  | cons e rest ih =>
    simp only [ids, List.map_cons, List.nodup_cons] at h
    by_cases hid : e.id = d.id
    · simp only [mapSet, hid, beq_self_eq_true, if_true, ids, List.map_cons,
        List.nodup_cons]
      exact ⟨hid ▸ h.1, h.2⟩
    · simp only [mapSet, beq_iff_eq, hid, if_false, ids, List.map_cons,
        List.nodup_cons]
      refine ⟨fun hmem => ?_, ih h.2⟩
      rcases List.mem_map.1 hmem with ⟨x, hx, hxid⟩
      rcases mem_mapSet hx with rfl | hx'
      · exact hid hxid.symm
      · exact h.1 (List.mem_map.2 ⟨x, hx', hxid⟩)

theorem userCount_mapSet_of_mem {s : Store} {c d : SRSCard}
    (hnodup : (ids s).Nodup) (hc : c ∈ s) (hid : c.id = d.id)
    (huser : d.userId = c.userId) (u : String) :
    userCount (mapSet s d) u = userCount s u := by
  induction s with
  | nil => cases hc
  | cons e rest ih =>
    simp only [ids, List.map_cons, List.nodup_cons] at hnodup
    by_cases he : e.id = d.id
    · have hce : c = e := by
        rcases List.mem_cons.1 hc with h' | h'
        · exact h'
        · exact absurd (List.mem_map.2 ⟨c, h', (hid.trans he.symm)⟩) hnodup.1
      simp only [mapSet, he, beq_self_eq_true, if_true, userCount,
        List.filter_cons]
      rw [huser, hce]
      by_cases hu : e.userId = u
      · simp [hu]
      · simp [hu]
    · have hcrest : c ∈ rest := by
        rcases List.mem_cons.1 hc with h' | h'
        · exact absurd (h' ▸ hid) he
        · exact h'
      simp only [mapSet, beq_iff_eq, he, if_false, userCount, List.filter_cons]
      by_cases hu : e.userId = u
      · simp only [hu, beq_self_eq_true, if_true, List.length_cons]
        exact congrArg Nat.succ (ih hnodup.2 hcrest)
      · simp only [beq_iff_eq, hu, if_false]
        exact ih hnodup.2 hcrest

theorem dedupKeys_mapSet_of_mem {s : Store} {c d : SRSCard}
    (hnodup : (ids s).Nodup) (hdedup : dedupKeys s) (hc : c ∈ s)
    (hid : c.id = d.id) (huser : d.userId = c.userId)
    (heng : strLower d.english = strLower c.english) :
    dedupKeys (mapSet s d) := by
  induction s with
  | nil => cases hc
  | cons e rest ih =>
    simp only [ids, List.map_cons, List.nodup_cons] at hnodup
    rcases List.pairwise_cons.1 hdedup with ⟨hhead, htail⟩
    by_cases he : e.id = d.id
    · have hce : c = e := by
        rcases List.mem_cons.1 hc with h' | h'
        · exact h'
        · exact absurd (List.mem_map.2 ⟨c, h', (hid.trans he.symm)⟩) hnodup.1
      simp only [mapSet, he, beq_self_eq_true, if_true]
      refine List.pairwise_cons.2 ⟨fun x hx hmatch => ?_, htail⟩
      have huser' : d.userId = e.userId := hce ▸ huser
      have heng' : strLower d.english = strLower e.english := hce ▸ heng
      exact hhead x hx ⟨huser'.symm.trans hmatch.1, heng'.symm.trans hmatch.2⟩
    · have hcrest : c ∈ rest := by
        rcases List.mem_cons.1 hc with h' | h'
        · exact absurd (h' ▸ hid) he
        · exact h'
      simp only [mapSet, beq_iff_eq, he, if_false]
      refine List.pairwise_cons.2 ⟨fun x hx hmatch => ?_, ih hnodup.2 htail hcrest⟩
      rcases mem_mapSet hx with rfl | hx'
      · exact hhead c hcrest ⟨hmatch.1.trans huser, hmatch.2.trans heng⟩
      · exact hhead x hx' hmatch

theorem dedupKeys_mapSet_of_new {s : Store} {d : SRSCard}
    (hdedup : dedupKeys s)
    (hnew : ∀ e ∈ s, ¬(e.userId = d.userId ∧ strLower e.english = strLower d.english)) :
    dedupKeys (mapSet s d) := by
  induction s with
  | nil => simp [mapSet, dedupKeys]
  | cons e rest ih =>
    rcases List.pairwise_cons.1 hdedup with ⟨hhead, htail⟩
    by_cases he : e.id = d.id
    · simp only [mapSet, he, beq_self_eq_true, if_true]
      refine List.pairwise_cons.2 ⟨fun x hx hmatch => ?_, htail⟩
      exact hnew x (List.mem_cons_of_mem _ hx) ⟨hmatch.1.symm, hmatch.2.symm⟩
    · simp only [mapSet, beq_iff_eq, he, if_false]
      refine List.pairwise_cons.2 ⟨fun x hx hmatch => ?_,
        ih htail (fun y hy => hnew y (List.mem_cons_of_mem _ hy))⟩
      rcases mem_mapSet hx with rfl | hx'
      · exact hnew e (List.mem_cons_self _ _) hmatch
      · exact hhead x hx' hmatch

/-! ## Demonstration values used by the witnesses -/

/-- A concrete discovery call: user `u1` finds `Dumpling` at instant 0. -/
def demoArgs : AddArgs := ⟨"u1", "Dumpling", "饺子", "jiǎozi", "a staple food", 0⟩

/-- The card created by the demonstration discovery. -/
def demoCard : SRSCard := (addCard [] demoArgs).1

/-- The store after the demonstration discovery. -/
def demoStore : Store := (addCard [] demoArgs).2

/-- The demonstration card reviewed with `AGAIN` at instant 1. -/
def demoAgainReview : SRSCard × Store :=
  (reviewCard demoStore demoCard.id .AGAIN 1).getD (demoCard, demoStore)

/-- The demonstration card reviewed with `GOOD` at instant 1. -/
def demoGoodReview : SRSCard × Store :=
  (reviewCard demoStore demoCard.id .GOOD 1).getD (demoCard, demoStore)

/-! ## The claims -/

/-- C1: for every existing card and a failing quality grade (`AGAIN` or
`HARD`), `reviewCard` resets the card: `repetitions = 0` and `interval = 1`,
regardless of the card's prior state; the reset card is what is stored. -/
theorem reviewCard_fail_resets {s : Store} {cardId : String}
    {q : ReviewQuality} {now : ℚ} {c' : SRSCard} {s' : Store}
    (hq : q = .AGAIN ∨ q = .HARD)
    (h : reviewCard s cardId q now = some (c', s')) :
    c'.repetitions = 0 ∧ c'.interval = 1 ∧ c' ∈ s' := by
  rcases hget : mapGet s cardId with _ | card
  · simp [reviewCard, hget] at h
  · simp only [reviewCard, hget, Option.some.injEq, Prod.mk.injEq] at h
    obtain ⟨hc, hs⟩ := h
    subst hc
    subst hs
    refine ⟨?_, ?_, self_mem_mapSet _ _⟩ <;>
      rcases hq with rfl | rfl <;>
      simp [calculateNextReview, ReviewQuality.val]

/-- Witness for C1 at a concrete input. -/
theorem reviewCard_fail_resets_witness :
    demoAgainReview.1.repetitions = 0 ∧ demoAgainReview.1.interval = 1 ∧
      demoAgainReview.1 ∈ demoAgainReview.2 :=
  @reviewCard_fail_resets demoStore demoCard.id .AGAIN 1
    demoAgainReview.1 demoAgainReview.2 (Or.inl rfl) rfl

/-- C3: for every existing card and a passing quality grade (`GOOD` or
`EASY`), `reviewCard` increments `repetitions`; the new interval is 1 when
the new repetition count is 1, 6 when it is 2, and otherwise
`round(previousInterval * newEaseFactor)` — the interval the card had
before the review, times the already-updated ease factor. -/
theorem reviewCard_success_schedule {s : Store} {cardId : String}
    {q : ReviewQuality} {now : ℚ} {card c' : SRSCard} {s' : Store}
    (hq : q = .GOOD ∨ q = .EASY)
    (hcard : mapGet s cardId = some card)
    (h : reviewCard s cardId q now = some (c', s')) :
    c'.repetitions = card.repetitions + 1 ∧
    c'.interval = (if card.repetitions + 1 = 1 then (1 : ℚ)
      else if card.repetitions + 1 = 2 then 6
      else (jsRound (card.interval * c'.easeFactor) : ℚ)) := by
  simp only [reviewCard, hcard, Option.some.injEq, Prod.mk.injEq] at h
  obtain ⟨hc, hs⟩ := h
  subst hc
  rcases hq with rfl | rfl
  · simp [calculateNextReview, ReviewQuality.val]
  · simp [calculateNextReview, ReviewQuality.val]
    norm_num

/-- Witness for C3 at a concrete input. -/
theorem reviewCard_success_schedule_witness :
    demoGoodReview.1.repetitions = demoCard.repetitions + 1 ∧
    demoGoodReview.1.interval = (if demoCard.repetitions + 1 = 1 then (1 : ℚ)
      else if demoCard.repetitions + 1 = 2 then 6
      else (jsRound (demoCard.interval * demoGoodReview.1.easeFactor) : ℚ)) :=
  @reviewCard_success_schedule demoStore demoCard.id .GOOD 1 demoCard
    demoGoodReview.1 demoGoodReview.2 (Or.inl rfl) rfl rfl

/-- C4: every review, with every quality grade including the failing ones,
updates the ease factor to
`max(1.3, oldEase + (0.1 - (3 - quality) * (0.08 + (3 - quality) * 0.02)))`
where `quality` is the grade's numeric value. -/
theorem reviewCard_ease_formula {s : Store} {cardId : String}
    {q : ReviewQuality} {now : ℚ} {card c' : SRSCard} {s' : Store}
    (hcard : mapGet s cardId = some card)
    (h : reviewCard s cardId q now = some (c', s')) :
    c'.easeFactor =
      max (13/10) (card.easeFactor +
        (1/10 - (3 - q.val) * (8/100 + (3 - q.val) * (2/100)))) := by
  simp only [reviewCard, hcard, Option.some.injEq, Prod.mk.injEq] at h
  obtain ⟨hc, hs⟩ := h
  subst hc
  rcases q with _ | _ | _ | _ <;>
    simp [calculateNextReview, ReviewQuality.val] <;> norm_num

/-- Witness for C4 at a concrete input. -/
theorem reviewCard_ease_formula_witness :
    demoAgainReview.1.easeFactor =
      max (13/10) (demoCard.easeFactor +
        (1/10 - (3 - ReviewQuality.AGAIN.val) *
          (8/100 + (3 - ReviewQuality.AGAIN.val) * (2/100)))) :=
  @reviewCard_ease_formula demoStore demoCard.id .AGAIN 1 demoCard
    demoAgainReview.1 demoAgainReview.2 rfl rfl

/-- C10 (frame): a successful `reviewCard` leaves the reviewed card's
content fields, `createdAt` and `timesSeenCount` unchanged (as well as its
id and owner), leaves every other card in the store untouched, and does not
change the number of cards. -/
theorem reviewCard_frame {s : Store} {cardId : String}
    {q : ReviewQuality} {now : ℚ} {card c' : SRSCard} {s' : Store}
    (hcard : mapGet s cardId = some card)
    (h : reviewCard s cardId q now = some (c', s')) :
    c'.id = card.id ∧ c'.userId = card.userId ∧
    c'.english = card.english ∧ c'.translation = card.translation ∧
    c'.pronunciation = card.pronunciation ∧
    c'.culturalContext = card.culturalContext ∧
    c'.createdAt = card.createdAt ∧
    c'.timesSeenCount = card.timesSeenCount ∧
    s'.length = s.length ∧
    (∀ d ∈ s, d.id ≠ cardId → d ∈ s') ∧
    (∀ d ∈ s', d.id ≠ cardId → d ∈ s) := by
  have hmem : card ∈ s := List.mem_of_find?_eq_some hcard
  have hid : card.id = cardId := by
    have := List.find?_some hcard
    simpa using this
  simp only [reviewCard, hcard, Option.some.injEq, Prod.mk.injEq] at h
  obtain ⟨hc, hs⟩ := h
  subst hc
  subst hs
  refine ⟨rfl, rfl, rfl, rfl, rfl, rfl, rfl, rfl, ?_, ?_, ?_⟩
  · exact length_mapSet_of_mem hmem rfl
  · intro d hd hdne
    exact mem_mapSet_of_ne hd (fun he => hdne (he.trans hid))
  · intro d hd hdne
    rcases mem_mapSet hd with rfl | hd'
    · exact absurd hid hdne
    · exact hd'

/-- Witness for C10 at a concrete input. -/
theorem reviewCard_frame_witness :
    demoGoodReview.1.id = demoCard.id ∧
    demoGoodReview.1.userId = demoCard.userId ∧
    demoGoodReview.1.english = demoCard.english ∧
    demoGoodReview.1.translation = demoCard.translation ∧
    demoGoodReview.1.pronunciation = demoCard.pronunciation ∧
    demoGoodReview.1.culturalContext = demoCard.culturalContext ∧
    demoGoodReview.1.createdAt = demoCard.createdAt ∧
    demoGoodReview.1.timesSeenCount = demoCard.timesSeenCount ∧
    demoGoodReview.2.length = demoStore.length ∧
    (∀ d ∈ demoStore, d.id ≠ demoCard.id → d ∈ demoGoodReview.2) ∧
    (∀ d ∈ demoGoodReview.2, d.id ≠ demoCard.id → d ∈ demoStore) :=
  @reviewCard_frame demoStore demoCard.id .GOOD 1 demoCard
    demoGoodReview.1 demoGoodReview.2 rfl rfl

/-- The ease factor produced by the SM-2 step is never below 1.3. -/
theorem calculateNextReview_ease_ge (easeFactor interval : ℚ) (repetitions : Nat)
    (q : ReviewQuality) :
    (13 : ℚ)/10 ≤ (calculateNextReview easeFactor interval repetitions q).easeFactor := by
  simp only [calculateNextReview]
  split
  · exact le_max_left _ _
  · exact le_max_left _ _

/-- The ease-factor invariant: every card of the store has ease ≥ 1.3. -/
def easeInv (s : Store) : Prop :=
  ∀ c ∈ s, (13 : ℚ)/10 ≤ c.easeFactor

theorem easeInv_mapSet {s : Store} {d : SRSCard} (hs : easeInv s)
    (hd : (13 : ℚ)/10 ≤ d.easeFactor) : easeInv (mapSet s d) := by
  intro c hc
  rcases mem_mapSet hc with rfl | hc'
  · exact hd
  · exact hs c hc'

theorem easeInv_addCard {s : Store} (hs : easeInv s) (a : AddArgs) :
    easeInv (addCard s a).2 := by
  rcases hfind : findExisting s a.userId a.english with _ | existing
  · simp only [addCard, hfind]
    exact easeInv_mapSet hs (by norm_num)
  · simp only [addCard, hfind]
    exact easeInv_mapSet hs (hs existing (List.mem_of_find?_eq_some hfind))

theorem easeInv_applyOp {s : Store} (hs : easeInv s) (op : Op) :
    easeInv (applyOp s op) := by
  rcases op with a | ⟨cardId, q, now⟩
  · exact easeInv_addCard hs a
  · rcases hget : mapGet s cardId with _ | card
    · simp only [applyOp, reviewCard, hget]
      exact hs
    · simp only [applyOp, reviewCard, hget]
      exact easeInv_mapSet hs (calculateNextReview_ease_ge _ _ _ _)

/-- C2: after any sequence of card creations and reviews, starting from the
empty store, every card's ease factor is at least 1.3. -/
theorem easeFactor_lower_bound (ops : List Op) :
    ∀ c ∈ runOps ops, (13 : ℚ)/10 ≤ c.easeFactor := by
  suffices h : ∀ s : Store, easeInv s → easeInv (ops.foldl applyOp s) from
    h [] (fun c hc => absurd hc (List.not_mem_nil c))
  induction ops with
  | nil => exact fun s hs => hs
  | cons op rest ih => exact fun s hs => ih _ (easeInv_applyOp hs op)

/-- Witness for C2 at a concrete input. -/
theorem easeFactor_lower_bound_witness : (13 : ℚ)/10 ≤ demoCard.easeFactor :=
  easeFactor_lower_bound [Op.add demoArgs] demoCard (List.Mem.head _)

/-- C7: `getDueCards` returns exactly the user's cards due at the query
instant (a permutation of the filtered store), sorted ascending by
`nextReview`; with an unchanged store and the same instant a second call
returns the identical result (the function is deterministic). -/
theorem getDueCards_spec (s : Store) (userId : String) (now : ℚ) :
    List.Perm (getDueCards s userId now)
      (s.filter (fun c => decide (c.userId = userId ∧ c.nextReview ≤ now))) ∧
    List.Sorted dueLE (getDueCards s userId now) ∧
    getDueCards s userId now = getDueCards s userId now := by
  refine ⟨?_, ?_, rfl⟩
  · have heq : s.filter (fun c => c.userId == userId && decide (c.nextReview ≤ now)) =
        s.filter (fun c => decide (c.userId = userId ∧ c.nextReview ≤ now)) := by
      apply List.filter_congr
      intro c _
      by_cases h1 : c.userId = userId <;> by_cases h2 : c.nextReview ≤ now <;>
        simp [h1, h2]
    simp only [getDueCards]
    rw [heq]
    exact List.perm_insertionSort dueLE _
  · simp only [getDueCards]
    exact List.sorted_insertionSort dueLE _

/-- One `addCard` call preserves id-uniqueness and key-uniqueness of the
store. -/
theorem addCard_preserves_inv {s : Store} (h1 : (ids s).Nodup)
    (h2 : dedupKeys s) (a : AddArgs) :
    (ids (addCard s a).2).Nodup ∧ dedupKeys (addCard s a).2 := by
  rcases hfind : findExisting s a.userId a.english with _ | existing
  · simp only [addCard, hfind]
    refine ⟨ids_nodup_mapSet h1, dedupKeys_mapSet_of_new h2 ?_⟩
    intro e he hmatch
    have hnone := List.find?_eq_none.1 hfind e he
    simp only [Bool.and_eq_true, beq_iff_eq, not_and] at hnone
    exact hnone hmatch.1 hmatch.2
  · simp only [addCard, hfind]
    have hmem := List.mem_of_find?_eq_some hfind
    exact ⟨ids_nodup_mapSet h1,
      dedupKeys_mapSet_of_mem h1 h2 hmem rfl rfl rfl⟩

/-- Every store reachable by `addCard` calls from empty has unique ids and
unique (userId, lowercased label) keys. -/
theorem runAdds_inv (as : List AddArgs) :
    (ids (runAdds as)).Nodup ∧ dedupKeys (runAdds as) := by
  suffices h : ∀ s : Store, (ids s).Nodup → dedupKeys s →
      (ids (as.foldl (fun s a => (addCard s a).2) s)).Nodup ∧
        dedupKeys (as.foldl (fun s a => (addCard s a).2) s) from
    h [] (by simp [ids]) (by simp [dedupKeys])
  induction as with
  | nil => exact fun s hs1 hs2 => ⟨hs1, hs2⟩
  | cons a rest ih =>
    intro s hs1 hs2
    have h' := addCard_preserves_inv hs1 hs2 a
    exact ih _ h'.1 h'.2

/-- C6: after any sequence of `addCard` calls, at most one card exists per
(userId, case-insensitive label) pair, and an `addCard` call whose
(case-insensitive) lookup hits an existing card returns that card with its
`timesSeenCount` incremented, creates no card, and leaves both the store
size and every user's card count unchanged. -/
theorem addCard_findOrCreate_unique (as : List AddArgs) :
    dedupKeys (runAdds as) ∧
    ∀ (a : AddArgs) (e : SRSCard),
      findExisting (runAdds as) a.userId a.english = some e →
      (addCard (runAdds as) a).1.timesSeenCount = e.timesSeenCount + 1 ∧
      (addCard (runAdds as) a).2.length = (runAdds as).length ∧
      ∀ u, userCount (addCard (runAdds as) a).2 u = userCount (runAdds as) u := by
  obtain ⟨h1, h2⟩ := runAdds_inv as
  refine ⟨h2, fun a e hfind => ?_⟩
  have hmem := List.mem_of_find?_eq_some hfind
  refine ⟨?_, ?_, ?_⟩
  · simp only [addCard, hfind]
  · simp only [addCard, hfind]
    exact length_mapSet_of_mem hmem rfl
  · intro u
    simp only [addCard, hfind]
    exact userCount_mapSet_of_mem h1 hmem (by rfl) (by rfl) u

/-- The demonstration re-discovery call: same user and label in a different
letter case, at a later instant. -/
def demoArgsAgain : AddArgs := ⟨"u1", "DUMPLING", "饺子", "jiǎozi", "a staple food", 3⟩

/-- Witness for C6 at a concrete input. -/
theorem addCard_findOrCreate_unique_witness :
    dedupKeys (runAdds [demoArgs]) ∧
    (addCard (runAdds [demoArgs]) demoArgsAgain).1.timesSeenCount =
      demoCard.timesSeenCount + 1 ∧
    (addCard (runAdds [demoArgs]) demoArgsAgain).2.length =
      (runAdds [demoArgs]).length ∧
    userCount (addCard (runAdds [demoArgs]) demoArgsAgain).2 "u1" =
      userCount (runAdds [demoArgs]) "u1" :=
  ⟨(addCard_findOrCreate_unique [demoArgs]).1,
   ((addCard_findOrCreate_unique [demoArgs]).2 demoArgsAgain demoCard rfl).1,
   ((addCard_findOrCreate_unique [demoArgs]).2 demoArgsAgain demoCard rfl).2.1,
   ((addCard_findOrCreate_unique [demoArgs]).2 demoArgsAgain demoCard rfl).2.2 "u1"⟩

/-- Reading back the number written for a natural-number counter. -/
theorem toNatValue_natCast (n : Nat) : toNatValue (n : ℚ) = some n := by
  simp [toNatValue, Rat.den_natCast, Rat.num_natCast]

/-- Deserialisation inverts serialisation on one card. -/
theorem decodeCard_encodeCard (c : SRSCard) : decodeCard (encodeCard c) = some c := by
  simp [encodeCard, decodeCard, jLookup, getStr, getNum, getNatNum,
    toNatValue_natCast, Option.bind]

/-- Deserialisation inverts serialisation on a card list. -/
theorem decodeCardList_map_encodeCard (l : List SRSCard) :
    decodeCardList (l.map encodeCard) = some l := by
  induction l with
  | nil => rfl
  | cons c rest ih =>
    simp only [List.map_cons, decodeCardList, decodeCard_encodeCard c, ih]

/-- Rebuilding a map from entries with pairwise distinct keys appends them
in order. -/
theorem foldl_mapSet_eq {l : List SRSCard} :
    ∀ acc : Store, (ids l).Nodup → (∀ x ∈ l, x.id ∉ ids acc) →
      l.foldl mapSet acc = acc ++ l := by
  induction l with
  | nil => intro acc _ _; simp
  | cons c rest ih =>
    intro acc hnodup hdisj
    simp only [ids, List.map_cons, List.nodup_cons] at hnodup
    simp only [List.foldl_cons]
    rw [mapSet_of_not_mem (hdisj c (List.mem_cons_self _ _)), ih (acc ++ [c])
      hnodup.2]
    · rw [List.append_assoc]
      rfl
    · intro x hx
      simp only [ids, List.map_append, List.map_cons, List.map_nil,
        List.mem_append, List.mem_cons, List.not_mem_nil, or_false]
      rintro (h | h)
      · exact hdisj x (List.mem_cons_of_mem _ hx) h
      · exact hnodup.1 (h ▸ List.mem_map_of_mem SRSCard.id hx)

/-- C8: saving the card collection and loading it back restores it exactly
(the stored ids are pairwise distinct, as they are for any `Map` content). -/
theorem loadCards_saveCards (s : Store) (h : (ids s).Nodup) :
    loadCards (saveCards s) = some s := by
  simp only [loadCards, saveCards, decodeCards, decodeCardList_map_encodeCard,
    Option.map_some']
  rw [foldl_mapSet_eq [] h (fun x _ hx => by simp [ids] at hx)]
  rfl

/-- A second discovery for the same user at a distinct instant: a store
with two cards. -/
def demoArgsOther : AddArgs := ⟨"u1", "Persimmon", "柿子", "shìzi", "autumn fruit", 7⟩

/-- A two-card store with unicode content. -/
def demoStoreTwo : Store := (addCard demoStore demoArgsOther).2

/-- Witness for C8 at a concrete input: a non-empty collection with unicode
content fields round-trips. -/
theorem loadCards_saveCards_witness :
    loadCards (saveCards demoStoreTwo) = some demoStoreTwo :=
  loadCards_saveCards demoStoreTwo (by decide)

/-- C5 (code bug): for a user who owns one never-reviewed card
(`correctCount = incorrectCount = 0`, so `totalReviews = 0`), `getStats`
guards the accuracy division with `userCards.length > 0` instead of
`totalReviews > 0` and therefore computes `0/0`, which is IEEE `NaN`
(modelled as `none`) — not the `accuracy == 0` the specification requires. -/
theorem getStats_zero_reviews_nan :
    (getStats demoStore "u1" 0).totalCards = 1 ∧
    (getStats demoStore "u1" 0).totalReviews = 0 ∧
    (getStats demoStore "u1" 0).accuracy = none :=
  ⟨rfl, rfl, rfl⟩

/-- A second discovery for the same user with a different label but the
same `Date.now()` value as `demoArgs`. -/
def demoArgsSameInstant : AddArgs := ⟨"u1", "Banana", "香蕉", "xiāngjiāo", "fruit", 0⟩

/-- C9 (code bug): a new card's id is `` `${userId}_${Date.now()}` ``, so
two discoveries of different labels by the same user in the same
millisecond produce the same id, and the second `Map.set` silently replaces
the first card: the label lookup misses (so a new card is built), the new
id equals the existing card's id, and the store still holds a single card —
the first card's label is gone. -/
theorem addCard_id_collision :
    findExisting demoStore demoArgsSameInstant.userId demoArgsSameInstant.english
      = none ∧
    (addCard demoStore demoArgsSameInstant).1.id = demoCard.id ∧
    (addCard demoStore demoArgsSameInstant).2.length = demoStore.length ∧
    (addCard demoStore demoArgsSameInstant).2.map SRSCard.english = ["Banana"] ∧
    demoStore.map SRSCard.english = ["Dumpling"] :=
  ⟨rfl, rfl, rfl, rfl, rfl⟩
